import Mathlib

/-!
Verification of the Simon-style sequence game engine in `src/App.tsx`
(genius-react-native).

The React component's state hooks become the fields of `AppState`; the
game-logic handlers (`startGame`, `addNewToSequence`, `handlePlayerInput`,
the end of `playSequence`) become pure functions over `AppState`.  Side
effects are made explicit: sound playback and the game-over alert become an
`Event` list, and `setTimeout` callbacks become a `Scheduled` list paired
with their delay in milliseconds.  `Math.floor(Math.random() * 4)` becomes
an explicit `Fin 4` argument.
-/

namespace Genius

/-- The four colors of `COLORS` in App.tsx. -/
inductive Color where
  | green
  | red
  | yellow
  | blue
deriving DecidableEq, Repr

/-- The four values of the `gameState` hook: 'idle' | 'watching' | 'playing' | 'gameOver'. -/
inductive GameState where
  | idle
  | watching
  | playing
  | gameOver
deriving DecidableEq, Repr

/-- `const SEQUENCE_DELAY = 800` (ms between sequence lights). -/
def SEQUENCE_DELAY : Nat := 800

/-- `const HIGHLIGHT_DURATION = 300` (ms for button highlight). -/
def HIGHLIGHT_DURATION : Nat := 300

/-- `Object.values(COLORS)` as used by `addNewToSequence`. -/
def colorsArray : List Color := [Color.green, Color.red, Color.yellow, Color.blue]

/-- The component state: the six `useState` hooks of App.tsx that carry game
data (`sequence`, `playerSequence`, `currentScore`, `highScore`, `gameState`,
`activeButton`).  Sound objects are an external capability and not modelled. -/
structure AppState where
  sequence : List Color
  playerSequence : List Color
  currentScore : Nat
  highScore : Nat
  gameState : GameState
  activeButton : Option Color
deriving DecidableEq, Repr

/-- Observable side effects emitted by a handler: `playSound(color)`,
`playSound('ERROR')`, and the `Alert.alert` carrying the final score and the
resolved high score. -/
inductive Event where
  | sound (c : Color)
  | errorSound
  | alert (finalScore resolvedHigh : Nat)
deriving DecidableEq, Repr

/-- Callbacks passed to `setTimeout` by `handlePlayerInput`: clearing the
active button highlight, and the deferred `addNewToSequence`. -/
inductive Scheduled where
  | clearActive
  | addNew
deriving DecidableEq, Repr

/-- `colorsArray[Math.floor(Math.random() * colorsArray.length)]`, with the
random draw `r : Fin 4` made explicit. -/
def nextColor (r : Fin 4) : Color :=
  colorsArray.get ⟨r.val, r.isLt⟩

/-- `addNewToSequence`: `setSequence(prev => [...prev, nextColor])`. -/
def addNewToSequence (r : Fin 4) (s : AppState) : AppState :=
  { s with sequence := s.sequence ++ [nextColor r] }

/-- The four `setState` calls at the head of `startGame`, before
`addNewToSequence()` runs: empty sequence and player buffer, zero score,
state 'watching'. -/
def startGameReset (s : AppState) : AppState :=
  { s with
      sequence := []
      playerSequence := []
      currentScore := 0
      gameState := GameState.watching }

/-- `startGame`: the reset followed by `addNewToSequence()` (whose functional
updater appends to the freshly emptied sequence). -/
def startGame (r : Fin 4) (s : AppState) : AppState :=
  addNewToSequence r (startGameReset s)

/-- `handlePlayerInput(color)`.  Returns the next state, the emitted events
in order, and the `setTimeout` callbacks with their delays.  Mirrors the
source: the `gameState !== 'playing'` guard returns immediately; otherwise
the input sound plays, the button highlights (cleared after
`HIGHLIGHT_DURATION / 2`), the symbol is appended, and the newest position of
the new buffer is compared (via JS indexing, i.e. `Option`-valued lookup)
against the same position of `sequence`.  Mismatch: error sound, state
'gameOver', high-score update when `currentScore > highScore`, alert with the
final and resolved scores, return.  Full match: score + 1, state 'watching',
`addNewToSequence` scheduled after 1000 ms. -/
def handlePlayerInput (c : Color) (s : AppState) :
    AppState × List Event × List (Nat × Scheduled) :=
  if s.gameState ≠ GameState.playing then (s, [], [])
  else if (s.playerSequence ++ [c]).get? ((s.playerSequence ++ [c]).length - 1) ≠
      s.sequence.get? ((s.playerSequence ++ [c]).length - 1) then
    ({ s with
        playerSequence := s.playerSequence ++ [c]
        activeButton := some c
        gameState := GameState.gameOver
        highScore := if s.currentScore > s.highScore then s.currentScore else s.highScore },
     [Event.sound c, Event.errorSound,
      Event.alert s.currentScore
        (if s.currentScore > s.highScore then s.currentScore else s.highScore)],
     [(HIGHLIGHT_DURATION / 2, Scheduled.clearActive)])
  else if (s.playerSequence ++ [c]).length = s.sequence.length then
    ({ s with
        playerSequence := s.playerSequence ++ [c]
        activeButton := some c
        currentScore := s.currentScore + 1
        gameState := GameState.watching },
     [Event.sound c],
     [(HIGHLIGHT_DURATION / 2, Scheduled.clearActive), (1000, Scheduled.addNew)])
  else
    ({ s with
        playerSequence := s.playerSequence ++ [c]
        activeButton := some c },
     [Event.sound c],
     [(HIGHLIGHT_DURATION / 2, Scheduled.clearActive)])

/-- The state change performed by `playSequence`: the entry guard
`gameState !== 'watching' || sequence.length === 0` returns unchanged;
otherwise, after the playback loop (whose last iteration leaves
`activeButton` null), state becomes 'playing' and the player buffer is
cleared. -/
def playSequenceFinish (s : AppState) : AppState :=
  if s.gameState ≠ GameState.watching ∨ s.sequence.length = 0 then s
  else
    { s with
        gameState := GameState.playing
        playerSequence := []
        activeButton := none }

/-- `setActiveButton(null)` (timer callback / loop body). -/
def clearActiveButton (s : AppState) : AppState :=
  { s with activeButton := none }

/-- `setActiveButton(color)` (loop body of `playSequence`). -/
def highlightButton (c : Color) (s : AppState) : AppState :=
  { s with activeButton := some c }

/-- One timed step of the `playSequence` loop: highlight the symbol for
`HIGHLIGHT_DURATION`, then wait the trailing gap. -/
structure PlaybackStep where
  symbol : Color
  highlightOnDuration : Nat
  gapAfterDuration : Nat
deriving DecidableEq, Repr

/-- The timed plan traced out by the `playSequence` loop over a sequence:
each iteration highlights its symbol for `HIGHLIGHT_DURATION`, and every
iteration except the last (`i < sequence.length - 1`) waits a further
`SEQUENCE_DELAY - HIGHLIGHT_DURATION` before the next. -/
def buildPlaybackPlan : List Color → List PlaybackStep
  | [] => []
  | [c] => [⟨c, HIGHLIGHT_DURATION, 0⟩]
  | c :: c2 :: rest =>
      ⟨c, HIGHLIGHT_DURATION, SEQUENCE_DELAY - HIGHLIGHT_DURATION⟩ ::
        buildPlaybackPlan (c2 :: rest)

/-- The initial hook values: empty lists, zero scores, state 'idle', no
active button. -/
def initialState : AppState :=
  { sequence := []
    playerSequence := []
    currentScore := 0
    highScore := 0
    gameState := GameState.idle
    activeButton := none }

/-- One atomic state change of the component: a button press or
"start"/"try again" press, the completion of a playback, a timer callback
firing (including a stale one), or a highlight inside the playback loop. -/
inductive Step : AppState → AppState → Prop where
  | start (r : Fin 4) (s : AppState) : Step s (startGame r s)
  | finishPlayback (s : AppState) : Step s (playSequenceFinish s)
  | input (c : Color) (s : AppState) : Step s (handlePlayerInput c s).1
  | timerAdd (r : Fin 4) (s : AppState) : Step s (addNewToSequence r s)
  | timerClear (s : AppState) : Step s (clearActiveButton s)
  | highlight (c : Color) (s : AppState) : Step s (highlightButton c s)

/-- A state is reachable when some run of atomic steps leads to it from the
initial hook values. -/
def Reachable (s : AppState) : Prop :=
  Relation.ReflTransGen Step initialState s

/-- N successive calls of `addNewToSequence`, one per random draw. -/
def genCalls (rs : List (Fin 4)) (s : AppState) : AppState :=
  rs.foldl (fun t r => addNewToSequence r t) s

/-- The inductive invariant: the player buffer never outgrows the sequence,
and while input is being accepted it is strictly shorter (the full-match
case leaves 'playing' at once). -/
def Inv (s : AppState) : Prop :=
  s.playerSequence.length ≤ s.sequence.length ∧
  (s.gameState = GameState.playing → s.playerSequence.length < s.sequence.length)

/-- A concrete Playing state one input away from completing its round. -/
def sampleRound1State : AppState :=
  { sequence := [Color.green]
    playerSequence := []
    currentScore := 0
    highScore := 0
    gameState := GameState.playing
    activeButton := none }

/-- A concrete Playing state whose score exceeds the stored high score. -/
def sampleHighState : AppState :=
  { sequence := [Color.green]
    playerSequence := []
    currentScore := 3
    highScore := 1
    gameState := GameState.playing
    activeButton := none }

lemma concat_length_sub_one (l : List Color) (c : Color) :
    (l ++ [c]).length - 1 = l.length := by simp

lemma concat_get_last (l : List Color) (c : Color) :
    (l ++ [c]).get? l.length = some c := by
  simp [List.get?_eq_getElem?]

lemma resolve_high (a b : Nat) :
    (if b > a then b else a) = max a b := by
  rw [Nat.max_def]; split_ifs <;> omega

/-- C4: For every symbol, a submit_input call made while GameState is
Watching, Idle, or GameOver is a no-op: GameState, PlayerBuffer, Sequence,
Score, and HighScore are all left unchanged (indeed the whole state is, and
no event or timer is produced). -/
theorem submitInput_nonPlaying_noop (c : Color) (s : AppState)
    (h : s.gameState = GameState.watching ∨ s.gameState = GameState.idle ∨
      s.gameState = GameState.gameOver) :
    handlePlayerInput c s = (s, [], []) := by
  have hne : s.gameState ≠ GameState.playing := by
    rcases h with h | h | h <;> simp [h]
  rw [handlePlayerInput, if_pos hne]

/-- Witness for C4 at a concrete non-Playing state. -/
theorem submitInput_nonPlaying_noop_witness :
    handlePlayerInput Color.green initialState = (initialState, [], []) :=
  submitInput_nonPlaying_noop Color.green initialState (Or.inr (Or.inl rfl))

/-- C1: In state Playing, when the appended symbol differs from the Sequence
symbol at the same index (JS lookup: also when that index is out of range),
the controller plays the error sound, transitions to GameOver, sets
HighScore to max(old HighScore, Score), surfaces the alert carrying the
final Score and the resolved HighScore, leaves Score and Sequence unchanged,
and schedules nothing further (in particular no sequence extension). -/
theorem submitInput_mismatch_failure (c : Color) (s : AppState)
    (hplay : s.gameState = GameState.playing)
    (hmis : s.sequence.get? s.playerSequence.length ≠ some c) :
    (handlePlayerInput c s).1.gameState = GameState.gameOver ∧
    (handlePlayerInput c s).1.highScore = max s.highScore s.currentScore ∧
    (handlePlayerInput c s).1.currentScore = s.currentScore ∧
    (handlePlayerInput c s).1.sequence = s.sequence ∧
    (handlePlayerInput c s).1.playerSequence = s.playerSequence ++ [c] ∧
    (handlePlayerInput c s).2.1 =
      [Event.sound c, Event.errorSound,
        Event.alert s.currentScore (max s.highScore s.currentScore)] ∧
    (handlePlayerInput c s).2.2 = [(HIGHLIGHT_DURATION / 2, Scheduled.clearActive)] := by
  rw [handlePlayerInput, if_neg (by simp [hplay]), concat_length_sub_one,
    concat_get_last, if_pos (fun h => hmis h.symm)]
  simp [resolve_high]

/-- Witness for C1: sequence [green], first input red. -/
theorem submitInput_mismatch_failure_witness :
    (handlePlayerInput Color.red
        { sequence := [Color.green], playerSequence := [], currentScore := 0,
          highScore := 0, gameState := GameState.playing,
          activeButton := none }).1.gameState = GameState.gameOver :=
  (submitInput_mismatch_failure Color.red
    { sequence := [Color.green], playerSequence := [], currentScore := 0,
      highScore := 0, gameState := GameState.playing, activeButton := none }
    rfl (by decide)).1

/-- C2: In state Playing, when the appended symbol matches the Sequence at
the same index and the new buffer length equals the Sequence length, Score
is incremented by exactly 1, the state transitions to Watching, and
`addNewToSequence` is scheduled after exactly 1000 ms — an action that grows
any sequence by exactly one symbol. -/
theorem submitInput_roundComplete (c : Color) (s : AppState)
    (hplay : s.gameState = GameState.playing)
    (hmatch : s.sequence.get? s.playerSequence.length = some c)
    (hfull : s.playerSequence.length + 1 = s.sequence.length) :
    (handlePlayerInput c s).1.currentScore = s.currentScore + 1 ∧
    (handlePlayerInput c s).1.gameState = GameState.watching ∧
    (handlePlayerInput c s).1.sequence = s.sequence ∧
    (1000, Scheduled.addNew) ∈ (handlePlayerInput c s).2.2 ∧
    (∀ (r : Fin 4) (t : AppState),
      (addNewToSequence r t).sequence.length = t.sequence.length + 1) := by
  rw [handlePlayerInput, if_neg (by simp [hplay]), concat_length_sub_one,
    concat_get_last, if_neg (not_not_intro hmatch.symm), if_pos (by simpa using hfull)]
  refine ⟨rfl, rfl, rfl, by simp, ?_⟩
  intro r t
  simp [addNewToSequence]

/-- Witness for C2: sequence [green], matching input green completes the round. -/
theorem submitInput_roundComplete_witness :
    (handlePlayerInput Color.green
        { sequence := [Color.green], playerSequence := [], currentScore := 0,
          highScore := 0, gameState := GameState.playing,
          activeButton := none }).1.currentScore = 0 + 1 :=
  (submitInput_roundComplete Color.green
    { sequence := [Color.green], playerSequence := [], currentScore := 0,
      highScore := 0, gameState := GameState.playing, activeButton := none }
    rfl (by decide) (by decide)).1

/-- C5: startGame resets Sequence and PlayerBuffer to empty and Score to 0
regardless of the prior state, transitions to Watching, and then generates
one symbol, so the Sequence holds exactly the one freshly generated symbol
(a member of the 4-color alphabet); HighScore is untouched. -/
theorem startGame_resets (r : Fin 4) (s : AppState) :
    (startGame r s).sequence = [nextColor r] ∧
    (startGame r s).playerSequence = [] ∧
    (startGame r s).currentScore = 0 ∧
    (startGame r s).gameState = GameState.watching ∧
    (startGame r s).highScore = s.highScore ∧
    (startGame r s).sequence.length = 1 ∧
    nextColor r ∈ colorsArray := by
  refine ⟨rfl, rfl, rfl, rfl, rfl, rfl, ?_⟩
  exact List.get_mem colorsArray r.val r.isLt

/-- C10: startGame carries no state guard: from a state with any gameState
whatsoever (Watching and Playing included) it performs the identical full
reset — the result does not depend on the incoming gameState at all. -/
theorem startGame_unguarded (r : Fin 4) (s : AppState) (g : GameState) :
    startGame r { s with gameState := g } = startGame r s ∧
    (startGame r s).sequence = [nextColor r] ∧
    (startGame r s).playerSequence = [] ∧
    (startGame r s).currentScore = 0 ∧
    (startGame r s).gameState = GameState.watching := by
  exact ⟨rfl, rfl, rfl, rfl, rfl⟩

lemma color_mem_alphabet (c : Color) : c ∈ colorsArray := by
  cases c <;> simp [colorsArray]

lemma genCalls_sequence (rs : List (Fin 4)) (s : AppState) :
    (genCalls rs s).sequence = s.sequence ++ rs.map nextColor := by
  induction rs generalizing s with
  | nil => simp [genCalls]
  | cons r rest ih =>
      simp [genCalls, List.foldl_cons] at ih ⊢
      rw [ih]
      simp [addNewToSequence]

/-- C8: Each call of `addNewToSequence` appends exactly one symbol of the
4-color alphabet, so N calls starting from an empty Sequence yield a
Sequence of length N all of whose elements belong to the alphabet. -/
theorem generateNext_growth (rs : List (Fin 4)) (s : AppState)
    (h : s.sequence = []) :
    (∀ (r : Fin 4) (t : AppState),
      (addNewToSequence r t).sequence = t.sequence ++ [nextColor r] ∧
        nextColor r ∈ colorsArray) ∧
    (genCalls rs s).sequence.length = rs.length ∧
    (∀ c ∈ (genCalls rs s).sequence, c ∈ colorsArray) := by
  refine ⟨fun r t => ⟨rfl, color_mem_alphabet _⟩, ?_, fun c _ => color_mem_alphabet c⟩
  rw [genCalls_sequence, h]
  simp

/-- Witness for C8: two calls starting from the empty initial sequence. -/
theorem generateNext_growth_witness :
    (genCalls [0, 1] initialState).sequence.length = [0, 1].length :=
  (generateNext_growth [0, 1] initialState rfl).2.1

lemma buildPlaybackPlan_map_symbol :
    ∀ l : List Color, (buildPlaybackPlan l).map PlaybackStep.symbol = l
  | [] => rfl
  | [_] => rfl
  | c :: c2 :: rest => by
      simp [buildPlaybackPlan, buildPlaybackPlan_map_symbol (c2 :: rest)]

lemma buildPlaybackPlan_length (l : List Color) :
    (buildPlaybackPlan l).length = l.length := by
  have := congrArg List.length (buildPlaybackPlan_map_symbol l)
  simpa using this

lemma buildPlaybackPlan_highlight :
    ∀ (l : List Color), ∀ st ∈ buildPlaybackPlan l,
      st.highlightOnDuration = HIGHLIGHT_DURATION
  | [], st, hst => by simp [buildPlaybackPlan] at hst
  | [c], st, hst => by
      simp [buildPlaybackPlan] at hst
      rw [hst]
  | c :: c2 :: rest, st, hst => by
      simp only [buildPlaybackPlan, List.mem_cons] at hst
      rcases hst with h | h
      · rw [h]
      · exact buildPlaybackPlan_highlight (c2 :: rest) st h

lemma buildPlaybackPlan_gap :
    ∀ (l : List Color) (i : Nat) (hi : i < (buildPlaybackPlan l).length),
      ((buildPlaybackPlan l).get ⟨i, hi⟩).gapAfterDuration =
        if i + 1 < l.length then SEQUENCE_DELAY - HIGHLIGHT_DURATION else 0
  | [], i, hi => by simp [buildPlaybackPlan] at hi
  | [c], i, hi => by
      have : i = 0 := by
        simp [buildPlaybackPlan] at hi
        omega
      subst this
      simp [buildPlaybackPlan]
  | c :: c2 :: rest, 0, hi => by
      simp [buildPlaybackPlan]
  | c :: c2 :: rest, i + 1, hi => by
      have hi' : i < (buildPlaybackPlan (c2 :: rest)).length := by
        simpa [buildPlaybackPlan] using hi
      have := buildPlaybackPlan_gap (c2 :: rest) i hi'
      simp only [buildPlaybackPlan, List.get_cons_succ]
      rw [this]
      simp only [List.length_cons]
      split_ifs <;> omega

/-- C9: For a non-empty sequence, the playback plan has one step per symbol
in order, each highlighted for HIGHLIGHT_DURATION, with a trailing gap of
SEQUENCE_DELAY - HIGHLIGHT_DURATION after every step except the last, whose
trailing gap is zero. -/
theorem playbackPlan_timing (seq : List Color) (_h : seq ≠ []) :
    (buildPlaybackPlan seq).map PlaybackStep.symbol = seq ∧
    (buildPlaybackPlan seq).length = seq.length ∧
    (∀ st ∈ buildPlaybackPlan seq, st.highlightOnDuration = HIGHLIGHT_DURATION) ∧
    (∀ (i : Nat) (hi : i < (buildPlaybackPlan seq).length),
      (i + 1 < seq.length →
        ((buildPlaybackPlan seq).get ⟨i, hi⟩).gapAfterDuration =
          SEQUENCE_DELAY - HIGHLIGHT_DURATION) ∧
      (i + 1 = seq.length →
        ((buildPlaybackPlan seq).get ⟨i, hi⟩).gapAfterDuration = 0)) := by
  refine ⟨buildPlaybackPlan_map_symbol seq, buildPlaybackPlan_length seq,
    buildPlaybackPlan_highlight seq, fun i hi => ⟨fun hlt => ?_, fun heq => ?_⟩⟩
  · rw [buildPlaybackPlan_gap seq i hi, if_pos hlt]
  · rw [buildPlaybackPlan_gap seq i hi, if_neg (by omega)]

/-- Witness for C9 on the two-symbol sequence [green, red]. -/
theorem playbackPlan_timing_witness :
    (buildPlaybackPlan [Color.green, Color.red]).map PlaybackStep.symbol =
      [Color.green, Color.red] :=
  (playbackPlan_timing [Color.green, Color.red] (by simp)).1

lemma inv_initial : Inv initialState := by
  constructor <;> simp [Inv, initialState]

lemma inv_input (c : Color) (s : AppState) (hInv : Inv s) :
    Inv (handlePlayerInput c s).1 := by
  by_cases hg : s.gameState = GameState.playing
  · have hlt : s.playerSequence.length < s.sequence.length := hInv.2 hg
    rw [handlePlayerInput, if_neg (by simp [hg]), concat_length_sub_one,
      concat_get_last]
    by_cases h1 : some c ≠ s.sequence.get? s.playerSequence.length
    · rw [if_pos h1]
      refine ⟨?_, ?_⟩
      · show (s.playerSequence ++ [c]).length ≤ s.sequence.length
        simp only [List.length_append, List.length_cons, List.length_nil]
        omega
      · intro hcontra
        exact absurd hcontra (by simp)
    · rw [if_neg h1]
      by_cases h2 : (s.playerSequence ++ [c]).length = s.sequence.length
      · rw [if_pos h2]
        refine ⟨?_, ?_⟩
        · show (s.playerSequence ++ [c]).length ≤ s.sequence.length
          omega
        · intro hcontra
          exact absurd hcontra (by simp)
      · rw [if_neg h2]
        refine ⟨?_, fun _ => ?_⟩
        · show (s.playerSequence ++ [c]).length ≤ s.sequence.length
          simp only [List.length_append, List.length_cons, List.length_nil]
          omega
        · show (s.playerSequence ++ [c]).length < s.sequence.length
          simp only [List.length_append, List.length_cons, List.length_nil] at h2 ⊢
          omega
  · rw [handlePlayerInput, if_pos hg]
    exact hInv

lemma inv_step (s s' : AppState) (hInv : Inv s) (hstep : Step s s') : Inv s' := by
  cases hstep with
  | start r =>
      constructor <;> simp [Inv, startGame, startGameReset, addNewToSequence]
  | finishPlayback =>
      rw [playSequenceFinish]
      split_ifs with hcond
      · exact hInv
      · push_neg at hcond
        refine ⟨by simp, fun _ => ?_⟩
        show ([] : List Color).length < s.sequence.length
        have h0 := hcond.2
        simp only [List.length_nil]
        omega
  | input c => exact inv_input c s hInv
  | timerAdd r =>
      refine ⟨?_, fun hgs => ?_⟩
      · show s.playerSequence.length ≤ (s.sequence ++ [nextColor r]).length
        have := hInv.1
        simp only [List.length_append, List.length_cons, List.length_nil]
        omega
      · have := hInv.2 (by simpa [addNewToSequence] using hgs)
        show s.playerSequence.length < (s.sequence ++ [nextColor r]).length
        simp only [List.length_append, List.length_cons, List.length_nil]
        omega
  | timerClear =>
      exact ⟨hInv.1, fun hgs => hInv.2 (by simpa [clearActiveButton] using hgs)⟩
  | highlight c =>
      exact ⟨hInv.1, fun hgs => hInv.2 (by simpa [highlightButton] using hgs)⟩

lemma reachable_inv (s : AppState) (h : Reachable s) : Inv s := by
  induction h with
  | refl => exact inv_initial
  | tail _ hbc ih => exact inv_step _ _ ih hbc

/-- C3: In every reachable state, and again after any further submit_input
call from it, the player buffer is no longer than the sequence. -/
theorem playerBuffer_le_sequence (s : AppState) (h : Reachable s) :
    s.playerSequence.length ≤ s.sequence.length ∧
    ∀ c : Color,
      (handlePlayerInput c s).1.playerSequence.length ≤
        (handlePlayerInput c s).1.sequence.length := by
  have hInv := reachable_inv s h
  exact ⟨hInv.1, fun c => (inv_input c s hInv).1⟩

/-- Witness for C3: a real three-step run (start, playback completion, one
correct input) ends with the buffer no longer than the sequence. -/
theorem playerBuffer_le_sequence_witness :
    (playSequenceFinish (startGame 0 initialState)).playerSequence.length ≤
      (playSequenceFinish (startGame 0 initialState)).sequence.length :=
  (playerBuffer_le_sequence (playSequenceFinish (startGame 0 initialState))
    (Relation.ReflTransGen.tail
      (Relation.ReflTransGen.tail Relation.ReflTransGen.refl
        (Step.start 0 initialState))
      (Step.finishPlayback (startGame 0 initialState)))).1

lemma step_highScore_le (s s' : AppState) (hstep : Step s s') :
    s.highScore ≤ s'.highScore := by
  cases hstep with
  | start r => exact Nat.le_refl _
  | finishPlayback =>
      rw [playSequenceFinish]
      split_ifs <;> exact Nat.le_refl _
  | input c =>
      rw [handlePlayerInput]
      by_cases hg : s.gameState ≠ GameState.playing
      · rw [if_pos hg]
      · rw [if_neg hg]
        by_cases h1 : (s.playerSequence ++ [c]).get?
            ((s.playerSequence ++ [c]).length - 1) ≠
            s.sequence.get? ((s.playerSequence ++ [c]).length - 1)
        · rw [if_pos h1]
          show s.highScore ≤
            if s.currentScore > s.highScore then s.currentScore else s.highScore
          split_ifs <;> omega
        · rw [if_neg h1]
          split_ifs <;> exact Nat.le_refl _
  | timerAdd r => exact Nat.le_refl _
  | timerClear => exact Nat.le_refl _
  | highlight c => exact Nat.le_refl _

lemma step_highScore_char (s s' : AppState) (hstep : Step s s')
    (hne : s'.highScore ≠ s.highScore) :
    s.gameState = GameState.playing ∧ s'.gameState = GameState.gameOver ∧
    s.currentScore > s.highScore ∧ s'.highScore = s.currentScore := by
  cases hstep with
  | start r => exact absurd rfl hne
  | finishPlayback =>
      rw [playSequenceFinish] at hne ⊢
      split_ifs at hne ⊢ <;> exact absurd rfl hne
  | input c =>
      rw [handlePlayerInput] at hne ⊢
      by_cases hg : s.gameState ≠ GameState.playing
      · rw [if_pos hg] at hne
        exact absurd rfl hne
      · rw [if_neg hg] at hne ⊢
        by_cases h1 : (s.playerSequence ++ [c]).get?
            ((s.playerSequence ++ [c]).length - 1) ≠
            s.sequence.get? ((s.playerSequence ++ [c]).length - 1)
        · rw [if_pos h1] at hne ⊢
          by_cases h4 : s.currentScore > s.highScore
          · rw [if_pos h4] at hne ⊢
            exact ⟨not_not.mp hg, rfl, h4, rfl⟩
          · rw [if_neg h4] at hne
            exact absurd rfl hne
        · rw [if_neg h1] at hne ⊢
          by_cases h2 : (s.playerSequence ++ [c]).length = s.sequence.length
          · rw [if_pos h2] at hne
            exact absurd rfl hne
          · rw [if_neg h2] at hne
            exact absurd rfl hne
  | timerAdd r => exact absurd rfl hne
  | timerClear => exact absurd rfl hne
  | highlight c => exact absurd rfl hne

/-- C7: Along any run of steps the high score never decreases, and a single
step changes it only on the failure transition (Playing to GameOver) and
only when the current score strictly exceeds the old high score, in which
case the new high score is that current score. -/
theorem highScore_monotone (s s' : AppState)
    (hrun : Relation.ReflTransGen Step s s') :
    s.highScore ≤ s'.highScore ∧
    ∀ t t' : AppState, Step t t' → t'.highScore ≠ t.highScore →
      t.gameState = GameState.playing ∧ t'.gameState = GameState.gameOver ∧
      t.currentScore > t.highScore ∧ t'.highScore = t.currentScore := by
  refine ⟨?_, fun t t' hstep hne => step_highScore_char t t' hstep hne⟩
  induction hrun with
  | refl => exact Nat.le_refl _
  | tail _ hbc ih => exact Nat.le_trans ih (step_highScore_le _ _ hbc)

/-- Witness for C7: a run refl-reaching the initial state keeps the high
score, and a concrete failure step at score 3 over high score 1 raises the
high score to 3. -/
theorem highScore_monotone_witness :
    initialState.highScore ≤ initialState.highScore ∧
    (handlePlayerInput Color.red sampleHighState).1.highScore =
      sampleHighState.currentScore :=
  ⟨(highScore_monotone initialState initialState Relation.ReflTransGen.refl).1,
    ((highScore_monotone initialState initialState Relation.ReflTransGen.refl).2
      sampleHighState (handlePlayerInput Color.red sampleHighState).1
      (Step.input Color.red sampleHighState) (by decide)).2.2.2⟩

/-- C6 counterexample: completing the one-symbol round leaves the machine in
Watching (the new round's playback starts from exactly this state) and
schedules the deferred `addNewToSequence`; firing that timer appends a
symbol while the state is Watching and mutates the Sequence — so the append
does not happen "while the state is not Playing or Watching". -/
theorem sequenceAppend_watching_counterexample :
    (handlePlayerInput Color.green sampleRound1State).1.gameState =
      GameState.watching ∧
    (1000, Scheduled.addNew) ∈ (handlePlayerInput Color.green sampleRound1State).2.2 ∧
    (addNewToSequence 0 (handlePlayerInput Color.green sampleRound1State).1).sequence ≠
      (handlePlayerInput Color.green sampleRound1State).1.sequence ∧
    (addNewToSequence 0 (handlePlayerInput Color.green sampleRound1State).1).gameState =
      GameState.watching ∧
    (startGameReset initialState).gameState = GameState.watching ∧
    startGame 0 initialState = addNewToSequence 0 (startGameReset initialState) := by
  decide

/-- C6 amended: the Sequence is mutated only by start_game's reset and by
the one-symbol appends of `addNewToSequence`; an append is invoked at game
start and scheduled (1000 ms) at round completion, and at both of those
moments the state has just been set to Watching (not, as claimed, a state
that is neither Playing nor Watching); submit_input itself, playback
completion, and the highlight timers never mutate the Sequence. -/
theorem sequenceAppend_roundStart (r : Fin 4) (c : Color) (s : AppState) :
    (addNewToSequence r s).sequence = s.sequence ++ [nextColor r] ∧
    startGame r s = addNewToSequence r (startGameReset s) ∧
    (startGameReset s).gameState = GameState.watching ∧
    ((1000, Scheduled.addNew) ∈ (handlePlayerInput c s).2.2 →
      s.gameState = GameState.playing ∧
      (handlePlayerInput c s).1.gameState = GameState.watching) ∧
    (handlePlayerInput c s).1.sequence = s.sequence ∧
    (playSequenceFinish s).sequence = s.sequence ∧
    (clearActiveButton s).sequence = s.sequence ∧
    (highlightButton c s).sequence = s.sequence := by
  refine ⟨rfl, rfl, rfl, ?_, ?_, ?_, rfl, rfl⟩
  · rw [handlePlayerInput]
    split_ifs with hg h1 h4 h2
    · intro hmem
      simp at hmem
    · intro hmem
      simp at hmem
    · intro hmem
      simp at hmem
    · exact fun _ => ⟨not_not.mp hg, rfl⟩
    · intro hmem
      simp at hmem
  · rw [handlePlayerInput]
    split_ifs <;> rfl
  · rw [playSequenceFinish]
    split_ifs <;> rfl

/-- Witness for the amended C6: the concrete round completion schedules the
append from a Playing state and lands in Watching. -/
theorem sequenceAppend_roundStart_witness :
    sampleRound1State.gameState = GameState.playing ∧
    (handlePlayerInput Color.green sampleRound1State).1.gameState =
      GameState.watching :=
  (sequenceAppend_roundStart 0 Color.green sampleRound1State).2.2.2.1 (by decide)

end Genius
